import Mathlib

/-!
Shallow embedding of the chart-analysis frontend's pure derivation layer:

* `buildChartData` — the series merger of
  `frontend/src/components/StockDashboard.jsx` (lines 81–123), which merges
  a trailing price window, evaluated prediction history and forward
  predictions into one chart series;
* `getGrade` — the accuracy grader of
  `frontend/src/components/PredictionAccuracy.jsx` (lines 51–65) together
  with its `METRIC_INFO` threshold tables;
* `rankFeatures` — the feature-importance rendering computation of
  `StockDashboard.jsx` (lines 294–315): dominance flag `idx < 3` and display
  width `Math.max(2, importance * 100)`.

Numbers are modelled as rationals (`ℚ`), JavaScript `null`/`undefined` as
`Option.none`.  Calendar dates are triples (year, month, day); the source's
`formatDate` renders a date with `toLocaleDateString('ko-KR', { month:
'short', day: 'numeric' })`, i.e. the key it produces carries the month and
the day but drops the year, which we model by projecting to the pair
(month, day).  A JavaScript `Map` keyed by those strings is modelled as a
list of values in insertion order, where `set` on an existing key replaces
the value in place and `set` on a fresh key appends.
-/

/-- A calendar date as carried by the API payloads (`p.date`,
`h.target_date`): year, month and day. -/
structure DateStr where
  year : ℕ
  month : ℕ
  day : ℕ
deriving DecidableEq

/-- `formatDate` of `StockDashboard.jsx`: the ko-KR short format shows only
month and day, so the date key is the pair (month, day); the year is
dropped. -/
def formatDate (d : DateStr) : ℕ × ℕ :=
  (d.month, d.day)

/-- One element of `stockData.prices` as used by `buildChartData`: only the
`date` and `close` fields are read. -/
structure PricePoint where
  date : DateStr
  close : ℚ
deriving DecidableEq

/-- One element of `predictionHistory` (the history API): a past forecast,
whose `actual_price` stays `none` until it is evaluated. -/
structure PredictionRecord where
  target_date : DateStr
  predicted_price : ℚ
  actual_price : Option ℚ
deriving DecidableEq

/-- One element of `prediction.predictions`: a forward forecast with an
optional corrected price. -/
structure ForwardPrediction where
  date : DateStr
  predicted_price : ℚ
  corrected_price : Option ℚ
deriving DecidableEq

/-- One element of the merged chart series: `{date, price?, predicted?}`. -/
structure MergedPoint where
  date : ℕ × ℕ
  price : Option ℚ
  predicted : Option ℚ
deriving DecidableEq

/-- `stockData.prices.slice(-30)`: the trailing `n` elements of a list (the
whole list when it is shorter). -/
def takeLast (n : ℕ) (xs : List α) : List α :=
  xs.drop (xs.length - n)

/-- `dataMap.set(date, {date, price})` on the insertion-ordered map: replace
the value at an existing key in place, otherwise append. -/
def insertPrice (m : List MergedPoint) (pt : MergedPoint) : List MergedPoint :=
  if m.any (fun q => q.date = pt.date) then
    m.map (fun q => if q.date = pt.date then pt else q)
  else
    m ++ [pt]

/-- The history-merge step: `if (dataMap.has(date)) dataMap.get(date).predicted
= h.predicted_price` — the entry at the record's date key, when present, gets
its `predicted` field set; entries at other keys are untouched. -/
def attachOne (m : List MergedPoint) (h : PredictionRecord) : List MergedPoint :=
  m.map (fun q =>
    if q.date = formatDate h.target_date then
      { q with predicted := some h.predicted_price }
    else q)

/-- The historical segment of the merged series: the price window (last 30
price points) loaded into the date-keyed map, then every history record with
a non-null `actual_price` merged in. -/
def histSegment (prices : List PricePoint) (history : List PredictionRecord) :
    List MergedPoint :=
  let window := takeLast 30 prices
  let m0 := window.foldl
    (fun m p => insertPrice m ⟨formatDate p.date, some p.close, none⟩) []
  (history.filter (fun h => h.actual_price ≠ none)).foldl attachOne m0

/-- The bridge overwrite: `result[result.length - 1].predicted =
result[result.length - 1].price` when the list is non-empty. -/
def setBridge : List MergedPoint → List MergedPoint
  | [] => []
  | [p] => [{ p with predicted := p.price }]
  | p :: q :: rest => p :: setBridge (q :: rest)

/-- One appended forward point: `{date, predicted: p.corrected_price ||
p.predicted_price}` — JavaScript `||` falls back when `corrected_price` is
absent, null or `0` (falsy). -/
def forwardPoint (p : ForwardPrediction) : MergedPoint :=
  { date := formatDate p.date
    price := none
    predicted := some (match p.corrected_price with
      | some c => if c = 0 then p.predicted_price else c
      | none => p.predicted_price) }

/-- `buildChartData` of `StockDashboard.jsx`: build the historical segment;
when a forward-prediction sequence is supplied (`prediction?.predictions`
truthy — even an empty array), apply the bridge overwrite to the last
historical point and append one point per forward prediction. -/
def buildChartData (prices : List PricePoint) (history : List PredictionRecord)
    (forward : Option (List ForwardPrediction)) : List MergedPoint :=
  let result := histSegment prices history
  match forward with
  | none => result
  | some fps => setBridge result ++ fps.map forwardPoint

/-- A grade as returned by `getGrade`: the label and the colour class of the
matched threshold entry. -/
structure GradeInfo where
  grade : String
  color : String
deriving DecidableEq

/-- `METRIC_INFO.mae.thresholds`: ascending upper bounds, `none` standing for
the source's `Infinity`. -/
def maeThresholds : List (Option ℚ × GradeInfo) :=
  [(some 5, ⟨"매우 정확", "text-green-600"⟩),
   (some 15, ⟨"양호", "text-blue-600"⟩),
   (none, ⟨"개선 필요", "text-red-600"⟩)]

/-- `METRIC_INFO.mape.thresholds`. -/
def mapeThresholds : List (Option ℚ × GradeInfo) :=
  [(some 5, ⟨"매우 정확", "text-green-600"⟩),
   (some 10, ⟨"양호", "text-yellow-600"⟩),
   (none, ⟨"개선 필요", "text-red-600"⟩)]

/-- `METRIC_INFO.rmse.thresholds`. -/
def rmseThresholds : List (Option ℚ × GradeInfo) :=
  [(some 8, ⟨"매우 정확", "text-green-600"⟩),
   (some 20, ⟨"양호", "text-blue-600"⟩),
   (none, ⟨"개선 필요", "text-red-600"⟩)]

/-- `METRIC_INFO.direction_accuracy.thresholds`: descending lower bounds. -/
def directionThresholds : List (ℚ × GradeInfo) :=
  [(60, ⟨"우수", "text-green-600"⟩),
   (50, ⟨"보통", "text-yellow-600"⟩),
   (0, ⟨"미흡", "text-red-600"⟩)]

/-- `METRIC_INFO[metricKey]` restricted to the cost metrics (the ones graded
through the `value < t.max` loop). -/
def costInfo (metricKey : String) : Option (List (Option ℚ × GradeInfo)) :=
  if metricKey = "mae" then some maeThresholds
  else if metricKey = "mape" then some mapeThresholds
  else if metricKey = "rmse" then some rmseThresholds
  else none

/-- The cost-metric loop of `getGrade`: return the grade of the first
threshold with `value < t.max` (`none` is `Infinity`, which every value is
below); `none` when the loop falls through. -/
def findCost (v : ℚ) : List (Option ℚ × GradeInfo) → Option GradeInfo
  | [] => none
  | (mx, g) :: ts =>
    match mx with
    | none => some g
    | some m => if v < m then some g else findCost v ts

/-- The benefit-metric loop of `getGrade`: return the grade of the first
threshold with `value >= t.min`; `none` when the loop falls through. -/
def findBenefit (v : ℚ) : List (ℚ × GradeInfo) → Option GradeInfo
  | [] => none
  | (mn, g) :: ts => if mn ≤ v then some g else findBenefit v ts

/-- `getGrade` of `PredictionAccuracy.jsx`: `null` when the metric is unknown
or the value is absent; the descending-lower-bound loop for
`direction_accuracy`; the ascending-upper-bound loop for the cost metrics. -/
def getGrade (metricKey : String) (value : Option ℚ) : Option GradeInfo :=
  match value with
  | none => none
  | some v =>
    if metricKey = "direction_accuracy" then
      findBenefit v directionThresholds
    else
      match costInfo metricKey with
      | none => none
      | some ts => findCost v ts

/-- One element of `prediction.feature_importance`. -/
structure ImportanceEntry where
  feature : String
  importance : ℚ
  description : String
deriving DecidableEq

/-- One rendered feature-importance row: the stored importance, the
dominance flag (`idx < 3`) and the bar width (`Math.max(2, importance *
100)` percent). -/
structure RankedEntry where
  feature : String
  importance : ℚ
  dominant : Bool
  width : ℚ
deriving DecidableEq

/-- The indexed map underlying `featureImportance.map((fi, idx) => ...)`. -/
def rankGo (idx : ℕ) : List ImportanceEntry → List RankedEntry
  | [] => []
  | fi :: rest =>
    ⟨fi.feature, fi.importance, decide (idx < 3), max 2 (fi.importance * 100)⟩
      :: rankGo (idx + 1) rest

/-- The feature-importance rendering of `StockDashboard.jsx`: each entry is
tagged dominant exactly when its index is below 3, and its bar width is the
importance scaled to percent and clamped below at 2. -/
def rankFeatures (fis : List ImportanceEntry) : List RankedEntry :=
  rankGo 0 fis

/-! ## Helper lemmas -/

theorem takeLast_of_le {xs : List α} {n : ℕ} (h : xs.length ≤ n) :
    takeLast n xs = xs := by
  unfold takeLast
  have : xs.length - n = 0 := Nat.sub_eq_zero_of_le h
  simp [this]

theorem length_takeLast_le (n : ℕ) (xs : List α) :
    (takeLast n xs).length ≤ n := by
  unfold takeLast
  simp only [List.length_drop]
  omega

theorem takeLast_takeLast (n : ℕ) (xs : List α) :
    takeLast n (takeLast n xs) = takeLast n xs :=
  takeLast_of_le (length_takeLast_le n xs)

theorem length_insertPrice_le (m : List MergedPoint) (pt : MergedPoint) :
    (insertPrice m pt).length ≤ m.length + 1 := by
  unfold insertPrice
  split
  · simp
  · simp

theorem length_foldl_insertPrice (ps : List PricePoint) (m : List MergedPoint) :
    (ps.foldl (fun m p => insertPrice m ⟨formatDate p.date, some p.close, none⟩)
      m).length ≤ m.length + ps.length := by
  induction ps generalizing m with
  | nil => simp
  | cons p ps ih =>
    calc (List.foldl _ (insertPrice m ⟨formatDate p.date, some p.close, none⟩)
            ps).length
        ≤ (insertPrice m ⟨formatDate p.date, some p.close, none⟩).length
            + ps.length := ih _
      _ ≤ (m.length + 1) + ps.length := by
            have := length_insertPrice_le m ⟨formatDate p.date, some p.close, none⟩
            omega
      _ = m.length + (p :: ps).length := by simp; omega

theorem length_attachOne (m : List MergedPoint) (h : PredictionRecord) :
    (attachOne m h).length = m.length := by
  unfold attachOne; simp

theorem length_foldl_attachOne (hs : List PredictionRecord)
    (m : List MergedPoint) : (hs.foldl attachOne m).length = m.length := by
  induction hs generalizing m with
  | nil => rfl
  | cons h hs ih => simp [List.foldl_cons, ih, length_attachOne]

theorem foldl_attachOne_nil (hs : List PredictionRecord) :
    hs.foldl attachOne [] = [] := by
  induction hs with
  | nil => rfl
  | cons h hs ih => simpa [List.foldl_cons, attachOne] using ih

theorem length_histSegment_le (prices : List PricePoint)
    (history : List PredictionRecord) :
    (histSegment prices history).length ≤ 30 := by
  unfold histSegment
  rw [length_foldl_attachOne]
  have h1 := length_foldl_insertPrice (takeLast 30 prices) []
  have h2 := length_takeLast_le 30 prices
  simp only [List.length_nil, Nat.zero_add] at h1
  omega

theorem histSegment_nil (history : List PredictionRecord) :
    histSegment [] history = [] := by
  unfold histSegment takeLast
  simp [foldl_attachOne_nil]

theorem setBridge_append (l : List MergedPoint) (p : MergedPoint) :
    setBridge (l ++ [p]) = l ++ [{ p with predicted := p.price }] := by
  induction l with
  | nil => rfl
  | cons a l ih =>
    cases l with
    | nil => rfl
    | cons b l' => simpa [setBridge] using ih

theorem length_setBridge (l : List MergedPoint) :
    (setBridge l).length = l.length := by
  induction l with
  | nil => rfl
  | cons a l ih =>
    cases l with
    | nil => rfl
    | cons b l' => simpa [setBridge] using ih

/-! ## Claim theorems: AccuracyGrader -/

/-- C4: for the cost-type metrics (mae, mape, rmse) the grader walks the
ascending upper bounds and returns the grade of the first bound strictly
exceeding the value, the final bound being unbounded so every numeric value
receives a grade; in particular mae at 4.9 grades "매우 정확" (very accurate)
and mae at 5.0 grades "양호" (good). -/
theorem accuracyGrader_cost_strict_bounds :
    (∀ v : ℚ, getGrade "mae" (some v) =
      if v < 5 then some ⟨"매우 정확", "text-green-600"⟩
      else if v < 15 then some ⟨"양호", "text-blue-600"⟩
      else some ⟨"개선 필요", "text-red-600"⟩) ∧
    (∀ v : ℚ, getGrade "mape" (some v) =
      if v < 5 then some ⟨"매우 정확", "text-green-600"⟩
      else if v < 10 then some ⟨"양호", "text-yellow-600"⟩
      else some ⟨"개선 필요", "text-red-600"⟩) ∧
    (∀ v : ℚ, getGrade "rmse" (some v) =
      if v < 8 then some ⟨"매우 정확", "text-green-600"⟩
      else if v < 20 then some ⟨"양호", "text-blue-600"⟩
      else some ⟨"개선 필요", "text-red-600"⟩) ∧
    getGrade "mae" (some (49/10)) = some ⟨"매우 정확", "text-green-600"⟩ ∧
    getGrade "mae" (some 5) = some ⟨"양호", "text-blue-600"⟩ := by
  have hmae : ∀ v : ℚ, getGrade "mae" (some v) =
      if v < 5 then some ⟨"매우 정확", "text-green-600"⟩
      else if v < 15 then some ⟨"양호", "text-blue-600"⟩
      else some ⟨"개선 필요", "text-red-600"⟩ := fun v => by
    simp [getGrade, costInfo, maeThresholds, findCost]
  refine ⟨hmae, fun v => ?_, fun v => ?_, ?_, ?_⟩
  · simp [getGrade, costInfo, mapeThresholds, findCost]
  · simp [getGrade, costInfo, rmseThresholds, findCost]
  · rw [hmae]; norm_num
  · rw [hmae]; norm_num

/-- C5 counterexample: the claim says every value outside [50, ∞) grades
"미흡" (poor), but a negative directional accuracy falls through all three
lower bounds (the last one is 0, not -∞) and the grader returns the
no-grade sentinel instead. -/
theorem accuracyGrader_direction_negative_counterexample :
    getGrade "direction_accuracy" (some (-1)) = none ∧
    getGrade "direction_accuracy" (some (-1))
      ≠ some ⟨"미흡", "text-red-600"⟩ := by
  have h : getGrade "direction_accuracy" (some (-1)) = none := by
    norm_num [getGrade, findBenefit, directionThresholds]
  exact ⟨h, by simp [h]⟩

/-- C5 (amended): for the benefit-type metric `direction_accuracy` the grader
uses descending lower bounds and returns the grade of the first bound the
value meets or exceeds: values ≥ 60 grade "우수" (excellent), values in
[50, 60) grade "보통" (fair), values in [0, 50) grade "미흡" (poor), and
negative values receive no grade; in particular 60 grades "우수" and 59.9
grades "보통". -/
theorem accuracyGrader_direction_bounds :
    (∀ v : ℚ, getGrade "direction_accuracy" (some v) =
      if 60 ≤ v then some ⟨"우수", "text-green-600"⟩
      else if 50 ≤ v then some ⟨"보통", "text-yellow-600"⟩
      else if 0 ≤ v then some ⟨"미흡", "text-red-600"⟩
      else none) ∧
    getGrade "direction_accuracy" (some 60) = some ⟨"우수", "text-green-600"⟩ ∧
    getGrade "direction_accuracy" (some (599/10))
      = some ⟨"보통", "text-yellow-600"⟩ := by
  have hgen : ∀ v : ℚ, getGrade "direction_accuracy" (some v) =
      if 60 ≤ v then some ⟨"우수", "text-green-600"⟩
      else if 50 ≤ v then some ⟨"보통", "text-yellow-600"⟩
      else if 0 ≤ v then some ⟨"미흡", "text-red-600"⟩
      else none := fun v => by
    simp [getGrade, findBenefit, directionThresholds]
  refine ⟨hgen, ?_, ?_⟩
  · rw [hgen]; norm_num
  · rw [hgen]; norm_num

/-- C6: an absent metric value always yields the no-grade sentinel (the
grader is total, it never raises), and that sentinel differs from the grade
the worst numeric value of each metric receives. -/
theorem accuracyGrader_null_value :
    (∀ metricKey : String, getGrade metricKey none = none) ∧
    getGrade "mae" none ≠ getGrade "mae" (some 100) ∧
    getGrade "mape" none ≠ getGrade "mape" (some 100) ∧
    getGrade "rmse" none ≠ getGrade "rmse" (some 100) ∧
    getGrade "direction_accuracy" none
      ≠ getGrade "direction_accuracy" (some 0) := by
  refine ⟨fun metricKey => rfl, ?_, ?_, ?_, ?_⟩ <;>
    · simp [getGrade, costInfo, maeThresholds, mapeThresholds,
        rmseThresholds, directionThresholds, findCost, findBenefit]
      try norm_num
      exact fun hc => Option.noConfusion hc

/-- C10: for any metric identifier outside {mae, mape, rmse,
direction_accuracy} the grader returns the no-grade sentinel for every value
(absent or numeric) instead of raising. -/
theorem accuracyGrader_unknown_metric (metricKey : String)
    (h1 : metricKey ≠ "mae") (h2 : metricKey ≠ "mape")
    (h3 : metricKey ≠ "rmse") (h4 : metricKey ≠ "direction_accuracy")
    (value : Option ℚ) : getGrade metricKey value = none := by
  cases value with
  | none => rfl
  | some v => simp [getGrade, costInfo, h1, h2, h3, h4]

/-- Witness for C10 at the concrete identifier "volatility" and value 3. -/
theorem accuracyGrader_unknown_metric_witness :
    getGrade "volatility" (some 3) = none :=
  accuracyGrader_unknown_metric "volatility" (by decide) (by decide)
    (by decide) (by decide) (some 3)

/-! ## Claim theorems: FeatureImportanceRanker -/

theorem length_rankGo (idx : ℕ) (l : List ImportanceEntry) :
    (rankGo idx l).length = l.length := by
  induction l generalizing idx with
  | nil => rfl
  | cons fi rest ih => simp [rankGo, ih]

theorem rankGo_take (idx k : ℕ) (l : List ImportanceEntry) :
    (rankGo idx l).take k = rankGo idx (l.take k) := by
  induction l generalizing idx k with
  | nil => simp [rankGo]
  | cons fi rest ih =>
    cases k with
    | zero => simp [rankGo]
    | succ k => simp [rankGo, ih]

theorem rankGo_drop (idx k : ℕ) (l : List ImportanceEntry) :
    (rankGo idx l).drop k = rankGo (idx + k) (l.drop k) := by
  induction l generalizing idx k with
  | nil => simp [rankGo]
  | cons fi rest ih =>
    cases k with
    | zero => simp [rankGo]
    | succ k =>
      have : idx + 1 + k = idx + (k + 1) := by omega
      simp [rankGo, ih, this]

theorem mem_rankGo_dominant_true {idx : ℕ} {l : List ImportanceEntry}
    (hle : idx + l.length ≤ 3) :
    ∀ e ∈ rankGo idx l, e.dominant = true := by
  induction l generalizing idx with
  | nil => intro e he; simp [rankGo] at he
  | cons fi rest ih =>
    intro e he
    simp only [rankGo, List.mem_cons] at he
    rcases he with rfl | he
    · simp only [List.length_cons] at hle
      simp [decide_eq_true_eq]
      omega
    · exact ih (by simp at hle ⊢; omega) e he

theorem mem_rankGo_dominant_false {idx : ℕ} {l : List ImportanceEntry}
    (hge : 3 ≤ idx) : ∀ e ∈ rankGo idx l, e.dominant = false := by
  induction l generalizing idx with
  | nil => intro e he; simp [rankGo] at he
  | cons fi rest ih =>
    intro e he
    simp only [rankGo, List.mem_cons] at he
    rcases he with rfl | he
    · simp [decide_eq_false_iff_not]
      omega
    · exact ih (by omega) e he

theorem mem_rankGo_width {idx : ℕ} {l : List ImportanceEntry} :
    ∀ e ∈ rankGo idx l, (2 : ℚ) ≤ e.width := by
  induction l generalizing idx with
  | nil => intro e he; simp [rankGo] at he
  | cons fi rest ih =>
    intro e he
    simp only [rankGo, List.mem_cons] at he
    rcases he with rfl | he
    · exact le_max_left _ _
    · exact ih e he

theorem map_importance_rankGo (idx : ℕ) (l : List ImportanceEntry) :
    (rankGo idx l).map (fun e => e.importance)
      = l.map (fun e => e.importance) := by
  induction l generalizing idx with
  | nil => rfl
  | cons fi rest ih => simp [rankGo, ih]

/-- C8: of `n` importance entries exactly `min 3 n` — the first three
positions — are marked dominant; every rendered bar width is clamped below
at 2 while the stored importance values are exactly the input ones; and an
importance of 0.001 yields width 2 with the stored value still 0.001. -/
theorem featureRanker_dominant_clamp (fis : List ImportanceEntry) :
    ((rankFeatures fis).countP (fun e => e.dominant)) = min 3 fis.length ∧
    (∀ e ∈ (rankFeatures fis).take 3, e.dominant = true) ∧
    (∀ e ∈ (rankFeatures fis).drop 3, e.dominant = false) ∧
    (∀ e ∈ rankFeatures fis, (2 : ℚ) ≤ e.width) ∧
    (rankFeatures fis).map (fun e => e.importance)
      = fis.map (fun e => e.importance) ∧
    (rankFeatures [⟨"close", 1/1000, "closing price"⟩]).map
      (fun e => (e.width, e.importance)) = [(2, 1/1000)] := by
  have htake : ∀ e ∈ (rankFeatures fis).take 3, e.dominant = true := by
    intro e he
    rw [rankFeatures, rankGo_take] at he
    refine mem_rankGo_dominant_true ?_ e he
    have := List.length_take 3 fis
    omega
  have hdrop : ∀ e ∈ (rankFeatures fis).drop 3, e.dominant = false := by
    intro e he
    rw [rankFeatures, rankGo_drop] at he
    exact mem_rankGo_dominant_false (by omega) e he
  refine ⟨?_, htake, hdrop, ?_, map_importance_rankGo 0 fis, ?_⟩
  · have hsplit := List.take_append_drop 3 (rankFeatures fis)
    calc (rankFeatures fis).countP (fun e => e.dominant)
        = ((rankFeatures fis).take 3 ++ (rankFeatures fis).drop 3).countP
            (fun e => e.dominant) := by rw [hsplit]
      _ = ((rankFeatures fis).take 3).countP (fun e => e.dominant)
            + ((rankFeatures fis).drop 3).countP (fun e => e.dominant) :=
          List.countP_append _ _ _
      _ = ((rankFeatures fis).take 3).length + 0 := by
          rw [List.countP_eq_length.mpr (by intro a ha; simp [htake a ha]),
            List.countP_eq_zero.mpr (by intro a ha; simp [hdrop a ha])]
      _ = min 3 fis.length := by
          simp [List.length_take, rankFeatures, length_rankGo]
  · exact mem_rankGo_width
  · norm_num [rankFeatures, rankGo]

/-- Witness for C8 at a concrete two-entry list. -/
theorem featureRanker_dominant_clamp_witness :
    ((rankFeatures [⟨"close", 0, "a"⟩, ⟨"volume", 1, "b"⟩]).countP
      (fun e => e.dominant)) = min 3 2 ∧
    (2 : ℚ) ≤ (⟨"close", 0, true, 2⟩ : RankedEntry).width :=
  ⟨(featureRanker_dominant_clamp [⟨"close", 0, "a"⟩, ⟨"volume", 1, "b"⟩]).1,
   (featureRanker_dominant_clamp [⟨"close", 0, "a"⟩, ⟨"volume", 1, "b"⟩]).2.2.2.1
     ⟨"close", 0, true, 2⟩ (by norm_num [rankFeatures, rankGo])⟩

/-! ## Claim theorems: SeriesMerger -/

/-- C2 counterexample: with an empty price window but a forward prediction
supplied, the merger still appends the forward point, so the result is not
empty — the forward-append loop is not guarded by the window being
non-empty (only the bridge overwrite is). -/
theorem seriesMerger_empty_window_counterexample :
    buildChartData [] [] (some [⟨⟨2026, 1, 3⟩, 5, none⟩]) ≠ [] := by
  decide

/-- C2 (amended): an empty price window yields an empty historical segment,
and the result consists of exactly one appended point per supplied forward
prediction (so it is empty exactly when no forward predictions are supplied);
no bridge point is created. -/
theorem seriesMerger_empty_window (history : List PredictionRecord)
    (forward : Option (List ForwardPrediction)) :
    buildChartData [] history forward = (forward.getD []).map forwardPoint := by
  cases forward with
  | none => simp [buildChartData, histSegment_nil]
  | some fps => simp [buildChartData, histSegment_nil, setBridge]

/-- C3 counterexample: a forward prediction whose `corrected_price` is
present and equal to 0 is rendered with `predicted = predicted_price`
(here 7), not with the corrected value 0 — JavaScript `||` treats 0 as
absent. -/
theorem seriesMerger_corrected_zero_counterexample :
    (buildChartData [] [] (some [⟨⟨2026, 1, 3⟩, 7, some 0⟩])).map
      (fun q => q.predicted) = [some 7] ∧ some (7 : ℚ) ≠ some (0 : ℚ) := by
  refine ⟨by decide, by norm_num⟩

/-- C3 (amended): one MergedPoint is appended per forward prediction, in
order, with `price` absent and `predicted` equal to `corrected_price`
whenever that is present, non-null and non-zero, and equal to
`predicted_price` otherwise (in particular when `corrected_price` is 0). -/
theorem seriesMerger_forward_points (prices : List PricePoint)
    (history : List PredictionRecord) (fps : List ForwardPrediction) :
    (buildChartData prices history (some fps)).drop
        (histSegment prices history).length
      = fps.map (fun p =>
          ({ date := formatDate p.date, price := none,
             predicted := some (match p.corrected_price with
               | some c => if c ≠ 0 then c else p.predicted_price
               | none => p.predicted_price) } : MergedPoint)) := by
  have h1 : buildChartData prices history (some fps)
      = setBridge (histSegment prices history) ++ fps.map forwardPoint := rfl
  rw [h1, show (histSegment prices history).length
      = (setBridge (histSegment prices history)).length from
      (length_setBridge _).symm, List.drop_left]
  have hfp : forwardPoint = fun p : ForwardPrediction =>
      ({ date := formatDate p.date, price := none,
         predicted := some (match p.corrected_price with
           | some c => if c ≠ 0 then c else p.predicted_price
           | none => p.predicted_price) } : MergedPoint) := by
    funext p
    cases hc : p.corrected_price with
    | none => simp [forwardPoint, hc]
    | some c => by_cases h0 : c = 0 <;> simp [forwardPoint, hc, h0]
  rw [hfp]

/-- C1: when a forward-prediction sequence is supplied (even an empty one)
and the historical segment is non-empty, the point at the last historical
index of the merged result is the last historical point with its
`predicted` field overwritten by that point's own `price` — whatever
`predicted` value the evaluated history may have attached there before. -/
theorem seriesMerger_bridge_overwrite (prices : List PricePoint)
    (history : List PredictionRecord) (fps : List ForwardPrediction)
    (hne : histSegment prices history ≠ []) :
    (buildChartData prices history
        (some fps))[(histSegment prices history).length - 1]?
      = some { (histSegment prices history).getLast hne with
          predicted := ((histSegment prices history).getLast hne).price } := by
  have h1 : buildChartData prices history (some fps)
      = setBridge (histSegment prices history) ++ fps.map forwardPoint := rfl
  set l := histSegment prices history with hl
  have key : setBridge l
      = l.dropLast ++ [{ l.getLast hne with
          predicted := (l.getLast hne).price }] := by
    conv_lhs => rw [← List.dropLast_append_getLast hne]
    rw [setBridge_append]
  have h4 : l.length - 1 = l.dropLast.length := (List.length_dropLast l).symm
  rw [h1, key, List.append_assoc, h4,
    List.getElem?_append_right (le_refl _)]
  simp

/-- Witness for C1: a one-point window with a history record attached to
that same point; the bridge still overwrites `predicted` with the price. -/
theorem seriesMerger_bridge_overwrite_witness :
    ∃ hne : histSegment [⟨⟨2026, 1, 2⟩, 100⟩]
        [⟨⟨2026, 1, 2⟩, 101, some 102⟩] ≠ [],
      (buildChartData [⟨⟨2026, 1, 2⟩, 100⟩] [⟨⟨2026, 1, 2⟩, 101, some 102⟩]
          (some []))[(histSegment [⟨⟨2026, 1, 2⟩, 100⟩]
            [⟨⟨2026, 1, 2⟩, 101, some 102⟩]).length - 1]?
        = some { (histSegment [⟨⟨2026, 1, 2⟩, 100⟩]
              [⟨⟨2026, 1, 2⟩, 101, some 102⟩]).getLast hne with
            predicted := ((histSegment [⟨⟨2026, 1, 2⟩, 100⟩]
              [⟨⟨2026, 1, 2⟩, 101, some 102⟩]).getLast hne).price } :=
  ⟨by decide, seriesMerger_bridge_overwrite _ _ [] _⟩

theorem foldl_insertPrice_fresh (ps : List PricePoint) :
    ∀ m : List MergedPoint,
      (ps.map (fun p => formatDate p.date)).Nodup →
      (∀ p ∈ ps, ∀ q ∈ m, q.date ≠ formatDate p.date) →
      ps.foldl (fun m p => insertPrice m ⟨formatDate p.date, some p.close, none⟩)
          m
        = m ++ ps.map (fun p => ⟨formatDate p.date, some p.close, none⟩) := by
  induction ps with
  | nil => intro m _ _; simp
  | cons p ps ih =>
    intro m hnd hfresh
    rw [List.map_cons, List.nodup_cons] at hnd
    have hany : m.any (fun q => q.date = formatDate p.date) = false := by
      rw [List.any_eq_false]
      intro q hq
      simpa using hfresh p (List.mem_cons_self p ps) q hq
    have hins : insertPrice m ⟨formatDate p.date, some p.close, none⟩
        = m ++ [⟨formatDate p.date, some p.close, none⟩] := by
      unfold insertPrice
      simp [hany]
    have hfresh' : ∀ p' ∈ ps,
        ∀ q ∈ m ++ [(⟨formatDate p.date, some p.close, none⟩ : MergedPoint)],
          q.date ≠ formatDate p'.date := by
      intro p' hp' q hq
      rcases List.mem_append.mp hq with hq | hq
      · exact hfresh p' (List.mem_cons_of_mem _ hp') q hq
      · rw [List.mem_singleton.mp hq]
        intro hcontra
        have hc2 : formatDate p.date = formatDate p'.date := hcontra
        exact hnd.1 (by rw [hc2]; exact List.mem_map_of_mem _ hp')
    rw [List.foldl_cons, hins, ih _ hnd.2 hfresh']
    simp

/-- C7 counterexample: the date key drops the year, so a two-point window
whose dates differ only in the year collapses to one map entry — the result
length 1 differs from the window length 2 even though the window is
non-empty and no predictions are supplied. -/
theorem seriesMerger_window_length_counterexample :
    (buildChartData [⟨⟨2025, 1, 2⟩, 100⟩, ⟨⟨2026, 1, 2⟩, 102⟩] [] none).length
      ≠ ([⟨⟨2025, 1, 2⟩, 100⟩,
          ⟨⟨2026, 1, 2⟩, 102⟩] : List PricePoint).length := by
  decide

/-- C7 (amended): for every price window of at most 30 points whose
day-formatted date keys are pairwise distinct, with no evaluated predictions
and no forward predictions supplied, the result is exactly one `{date,
price}` point per window point — so the length matches the window and every
`predicted` field is absent. -/
theorem seriesMerger_no_predictions (prices : List PricePoint)
    (hlen : prices.length ≤ 30)
    (hnd : (prices.map (fun p => formatDate p.date)).Nodup) :
    buildChartData prices [] none
      = prices.map (fun p => ⟨formatDate p.date, some p.close, none⟩) := by
  have h0 : buildChartData prices [] none = histSegment prices [] := rfl
  rw [h0]
  simp only [histSegment, List.filter_nil, List.foldl_nil]
  rw [takeLast_of_le hlen]
  simpa using foldl_insertPrice_fresh prices [] hnd (by simp)

/-- Witness for C7 at a concrete two-point window. -/
theorem seriesMerger_no_predictions_witness :
    buildChartData [⟨⟨2026, 1, 1⟩, 100⟩, ⟨⟨2026, 1, 2⟩, 102⟩] [] none
      = [⟨(1, 1), some 100, none⟩, ⟨(1, 2), some 102, none⟩] :=
  (seriesMerger_no_predictions
    [⟨⟨2026, 1, 1⟩, 100⟩, ⟨⟨2026, 1, 2⟩, 102⟩]
    (by decide) (by decide)).trans (by decide)

/-- C9 counterexample: a 31-point window with one forward prediction —
the historical segment is truncated to 30 points, but the appended forward
point makes the result length equal the window length again, contradicting
"the result length does not equal the window length in that case". -/
theorem seriesMerger_over30_counterexample :
    ((List.range 31).map
        (fun i => (⟨⟨2026, 1, i + 1⟩, 100⟩ : PricePoint))).length = 31 ∧
    (buildChartData
        ((List.range 31).map (fun i => ⟨⟨2026, 1, i + 1⟩, 100⟩)) []
        (some [⟨⟨2026, 2, 1⟩, 7, none⟩])).length
      = ((List.range 31).map
          (fun i => (⟨⟨2026, 1, i + 1⟩, 100⟩ : PricePoint))).length := by
  refine ⟨by decide, by decide⟩

/-- C9 (amended): the merger only ever considers the last 30 elements of the
supplied price array — the output is unchanged when the input is replaced by
its trailing 30 elements — and the historical segment has at most 30 points,
so for a window of more than 30 points the historical segment is strictly
shorter than the window. -/
theorem seriesMerger_trailing_window (prices : List PricePoint)
    (history : List PredictionRecord)
    (forward : Option (List ForwardPrediction)) :
    buildChartData prices history forward
      = buildChartData (takeLast 30 prices) history forward ∧
    (histSegment prices history).length ≤ 30 ∧
    (30 < prices.length →
      (histSegment prices history).length < prices.length) := by
  have hhs : histSegment (takeLast 30 prices) history
      = histSegment prices history := by
    simp only [histSegment, takeLast_takeLast]
  refine ⟨?_, length_histSegment_le prices history, fun h => ?_⟩
  · unfold buildChartData
    rw [hhs]
  · have := length_histSegment_le prices history
    omega

/-- Witness for C9 at a concrete 31-point window. -/
theorem seriesMerger_trailing_window_witness :
    (histSegment ((List.range 31).map
        (fun i => ⟨⟨2026, 3, i + 1⟩, 100⟩)) []).length
      < ((List.range 31).map
          (fun i => (⟨⟨2026, 3, i + 1⟩, 100⟩ : PricePoint))).length :=
  (seriesMerger_trailing_window
    ((List.range 31).map (fun i => ⟨⟨2026, 3, i + 1⟩, 100⟩)) [] none).2.2
    (by decide)
